import Mathlib

/-!
Shallow embedding of the viewport highlight-composition and line-layout
engine of `src/helix-egui/src/app.rs` (the egui frontend of the editor).

The embedding models:
 * `dumb_log` and `get_grapheme_index` (pure helpers of `app.rs`);
 * `build_selection_highlights` (`ViewWidget`, lines 145-202);
 * the viewport byte-range computation of `build_syntax_highlights`
   (lines 210-222);
 * the focus gating of `build_highlights` (lines 135-144);
 * the compositor loop of `DocumentWidget::ui` (lines 362-492).

Rust strings are modelled as `List Char`; byte offsets use `Char.utf8Size`
so that `&str` byte arithmetic is faithful.  Machine integers are `Nat`
with explicit `% 65536` at each place the source casts to or computes in
`u16` (release-mode wrapping semantics).  A Rust panic is modelled as
`Option.none`, or, inside the compositor loop, by a `stopped` flag that
discards all further input (a panic aborts the frame).

Theme scope names are modelled as an enumeration `ScopeName` instead of
strings; scope ids and colors are opaque `Nat`s.
-/

set_option autoImplicit false

namespace HelixEgui

/-- A resolved style: optional foreground, optional background, optional
modifier set (modelled as an opaque `Nat` bitset).

Modelled from the spec: `StyleSpec` of helix-view (`Style` and
`Style::patch`) is not under `src/`; the spec describes it as "optional
foreground color, optional background color, set of modifier flags" where
patching overrides each field independently only if the inner style
defines it. -/
structure Style where
  fg : Option Nat
  bg : Option Nat
  modifiers : Option Nat
deriving DecidableEq

/-- Modelled from the spec: `Style::patch` of helix-view — "each of
foreground, background, and modifier-set is independently overridden only
if the inner scope defines that field, otherwise the outer value is
inherited (patch, not replace)". -/
def Style.patch (acc inner : Style) : Style :=
  { fg := match inner.fg with
      | some c => some c
      | none => acc.fg
    bg := match inner.bg with
      | some c => some c
      | none => acc.bg
    modifiers := match inner.modifiers with
      | some m => some m
      | none => acc.modifiers }

/-- The theme as seen by the compositor: `theme.highlight(scope)` resolves
a scope id to a concrete style (external `Theme` capability). -/
structure Theme where
  highlight : Nat → Style

/-- `helix_view::graphics::Rect` (fields `x`, `y`, `width`, `height`, all
`u16` in the source). -/
structure Rect where
  x : Nat
  y : Nat
  width : Nat
  height : Nat

/-- `helix_core::Position` (fields `row`, `col`, both `usize`). -/
structure Position where
  row : Nat
  col : Nat

/-- `helix_core::syntax::HighlightEvent`: a well-nested event stream of
source ranges and scope push/pops. -/
inductive HighlightEvent where
  | source (start stop : Nat)
  | highlightStart (scope : Nat)
  | highlightEnd
deriving DecidableEq

/-- Byte length of a string modelled as a char list (Rust `str::len`). -/
def byteLen (s : List Char) : Nat :=
  (s.map Char.utf8Size).sum

/-- Helper for `get_grapheme_index`: walks the chars accumulating the end
byte offset of each char, keeping the last end offset that is `≤ index`
(the `take_while(..).last().unwrap_or(0)` of the source). -/
def graphemeIndexGo (index : Nat) : List Char → Nat → Nat
  | [], acc => acc
  | c :: rest, acc =>
    if acc + c.utf8Size ≤ index then graphemeIndexGo index rest (acc + c.utf8Size)
    else acc

/-- `get_grapheme_index` of `app.rs` (lines 330-336): the largest char
boundary (as a byte offset) not exceeding `index`, or `0`. -/
def get_grapheme_index (val : List Char) (index : Nat) : Nat :=
  graphemeIndexGo index val 0

/-- Rust byte slicing `&val[0..n]` at a char boundary `n`. -/
def takeBytes : List Char → Nat → List Char
  | [], _ => []
  | c :: rest, n => if c.utf8Size ≤ n then c :: takeBytes rest (n - c.utf8Size) else []

/-- Rust byte slicing `&val[n..]` at a char boundary `n`. -/
def dropBytes : List Char → Nat → List Char
  | [], _ => []
  | c :: rest, n => if n = 0 then c :: rest else dropBytes rest (n - c.utf8Size)

/-- Rust `str::trim_end_matches('\n')`. -/
def trimEndNewline (s : List Char) : List Char :=
  (s.reverse.dropWhile (fun c => c = '\n')).reverse

/-- Helper for `splitInclusive`: accumulates the current piece reversed. -/
def splitInclusiveGo : List Char → List Char → List (List Char)
  | [], acc => if acc.isEmpty then [] else [acc.reverse]
  | c :: rest, acc =>
    if c = '\n' then (c :: acc).reverse :: splitInclusiveGo rest []
    else splitInclusiveGo rest (c :: acc)

/-- Rust `str::split_inclusive('\n')`: split after each newline, keeping
the newline at the end of each piece; the empty string yields no pieces. -/
def splitInclusive (s : List Char) : List (List Char) :=
  splitInclusiveGo s []

/-- `dumb_log` of `app.rs` (lines 318-326): decimal digit count of a line
number, reaching `unreachable!()` (modelled as `none`) at `10000` and
above. -/
def dumb_log (num : Nat) : Option Nat :=
  if num ≤ 9 then some 1
  else if num ≤ 99 then some 2
  else if num ≤ 999 then some 3
  else if num ≤ 9999 then some 4
  else none

/-! ## Selection highlight generator (`ViewWidget::build_selection_highlights`) -/

/-- The theme scope names looked up by `build_selection_highlights`,
modelled as an enumeration (the source uses string literals). -/
inductive ScopeName where
  | uiSelection
  | uiCursor
  | uiCursorInsert
  | uiCursorSelect
  | uiCursorPrimary
  | uiSelectionPrimary
deriving DecidableEq

/-- The slice of the external `Theme` used by the selection generator:
`find_scope_index` resolves a scope name to a scope id when the theme
defines it. -/
structure SelTheme where
  find_scope_index : ScopeName → Option Nat

/-- `helix_view::document::Mode`. -/
inductive Mode where
  | normal
  | insert
  | select
deriving DecidableEq

/-- `helix_core::Range` as used here: `anchor` and `head` char offsets. -/
structure SelRange where
  anchor : Nat
  head : Nat
deriving DecidableEq

/-- Modelled from the spec: `prev_grapheme_boundary` of helix-core is not
under `src/`; §4.1 sanctions the codepoint-level minimum, so the previous
boundary before char offset `i` is `i - 1` (clamped at `0`). -/
def prev_grapheme_boundary (_text : List Char) (i : Nat) : Nat :=
  i - 1

/-- Modelled from the spec: `next_grapheme_boundary` of helix-core is not
under `src/`; codepoint-level minimum per §4.1, clamped to the text
length. -/
def next_grapheme_boundary (text : List Char) (i : Nat) : Nat :=
  min (i + 1) text.length

/-- Modelled from the spec: `Range::min_width_1` of helix-core is not
under `src/`; §4.2 step 2 widens a zero-width range to one grapheme (a
block cursor over the grapheme at `head`). -/
def min_width_1 (text : List Char) (r : SelRange) : SelRange :=
  if r.anchor = r.head then { r with head := next_grapheme_boundary text r.head }
  else r

/-- The per-range body of the loop of `build_selection_highlights`
(lines 174-199), with the cursor/selection scopes already chosen for this
range.  Spans are `(scope, start, stop)` triples of char offsets. -/
def processRange (cursorScope selectionScope : Nat) (text : List Char)
    (r : SelRange) : List (Nat × Nat × Nat) :=
  if r.head = r.anchor ∧ r.head = text.length then
    [(cursorScope, r.head, r.head + 1)]
  else
    let r1 := min_width_1 text r
    if r1.head > r1.anchor then
      let cursorStart := prev_grapheme_boundary text r1.head
      [(selectionScope, r1.anchor, cursorStart), (cursorScope, cursorStart, r1.head)]
    else
      let cursorEnd := next_grapheme_boundary text r1.head
      [(cursorScope, r1.head, cursorEnd), (selectionScope, cursorEnd, r1.anchor)]

/-- `ViewWidget::build_selection_highlights` (lines 145-202).  Scope
resolution happens once, before the loop; a missing `ui.selection` scope
hits the source's `.expect(..)` panic, modelled as `none`. -/
def build_selection_highlights (theme : SelTheme) (mode : Mode)
    (text : List Char) (selection : List SelRange) (primaryIdx : Nat) :
    Option (List (Nat × Nat × Nat)) :=
  match theme.find_scope_index ScopeName.uiSelection with
  | none => none
  | some selectionScope =>
    let baseCursorScope := (theme.find_scope_index ScopeName.uiCursor).getD selectionScope
    let cursorScope :=
      (match mode with
        | Mode.insert => theme.find_scope_index ScopeName.uiCursorInsert
        | Mode.select => theme.find_scope_index ScopeName.uiCursorSelect
        | Mode.normal => some baseCursorScope).getD baseCursorScope
    let primaryCursorScope :=
      (theme.find_scope_index ScopeName.uiCursorPrimary).getD cursorScope
    let primarySelectionScope :=
      (theme.find_scope_index ScopeName.uiSelectionPrimary).getD selectionScope
    some (selection.enum.flatMap fun p =>
      if p.1 = primaryIdx then
        processRange primaryCursorScope primarySelectionScope text p.2
      else
        processRange cursorScope selectionScope text p.2)

/-! ## Viewport mapper (`ViewWidget::build_syntax_highlights`, lines 210-222) -/

/-- Number of lines of a text, ropey-style: number of `'\n'`s plus one. -/
def lineCount (text : List Char) : Nat :=
  text.count '\n' + 1

/-- Byte offset of the start of line `l` (total function; callers guard
the line index as ropey does). -/
def lineToByteAux : List Char → Nat → Nat
  | _, 0 => 0
  | [], _ + 1 => 0
  | c :: rest, l + 1 =>
    if c = '\n' then c.utf8Size + lineToByteAux rest l
    else c.utf8Size + lineToByteAux rest (l + 1)

/-- Ropey `Rope::line_to_byte`: defined for `l ≤ lineCount`, panics
(`none`) beyond. -/
def line_to_byte (text : List Char) (l : Nat) : Option Nat :=
  if l ≤ lineCount text then some (lineToByteAux text l) else none

/-- The viewport byte-range computation of `build_syntax_highlights`
(lines 210-222): `last_line` clamps to the end of the buffer with
saturating subtractions, then the byte range is obtained by two
`line_to_byte` lookups. -/
def build_syntax_highlights_range (text : List Char) (offsetRow height : Nat) :
    Option (Nat × Nat) :=
  let lastLine := min ((offsetRow + height) - 1) (lineCount text - 1)
  match line_to_byte text offsetRow, line_to_byte text (lastLine + 1) with
  | some s, some e => some (s, e)
  | _, _ => none

/-! ## Highlight stream merge and focus gating (`ViewWidget::build_highlights`) -/

/-- Splits every `source` event straddling byte position `pos` into two at
`pos`, leaving all other events unchanged. -/
def splitSourcesAt (pos : Nat) (events : List HighlightEvent) : List HighlightEvent :=
  events.flatMap fun ev =>
    match ev with
    | HighlightEvent.source a b =>
      if a < pos ∧ pos < b then [HighlightEvent.source a pos, HighlightEvent.source pos b]
      else [ev]
    | e => [e]

/-- Helper for `mergeSpec`: walks the (already split) event list, opening
the selection scope at the first source at or past `s` and closing it at
the first source at or past `e` (closing at the stream end if needed). -/
def insertSpanGo (scope s e : Nat) : List HighlightEvent → Bool → List HighlightEvent
  | [], opened => if opened then [HighlightEvent.highlightEnd] else []
  | HighlightEvent.source a b :: rest, opened =>
    if opened then
      if e ≤ a then
        HighlightEvent.highlightEnd :: HighlightEvent.source a b :: insertSpanGo scope s e rest false
      else
        HighlightEvent.source a b :: insertSpanGo scope s e rest true
    else
      if s ≤ a ∧ a < e then
        HighlightEvent.highlightStart scope :: HighlightEvent.source a b :: insertSpanGo scope s e rest true
      else
        HighlightEvent.source a b :: insertSpanGo scope s e rest false
  | ev :: rest, opened => ev :: insertSpanGo scope s e rest opened

/-- Modelled from the spec: `helix_core::syntax::merge` is not under
`src/`; §4.3 merges the flat selection spans into the well-nested syntax
stream, splitting `Source` runs at span boundaries and wrapping the
covered runs in the selection scope (selection opens before syntax at the
same offset). -/
def mergeSpec (events : List HighlightEvent) (spans : List (Nat × Nat × Nat)) :
    List HighlightEvent :=
  spans.foldl
    (fun evs sp =>
      insertSpanGo sp.1 sp.2.1 sp.2.2 (splitSourcesAt sp.2.2 (splitSourcesAt sp.2.1 evs)) false)
    events

/-- `ViewWidget::build_highlights` (lines 135-144): selection highlights
are merged into the syntax stream only when the view is focused.  The two
input streams are taken as arguments (in the source they are produced by
`build_syntax_highlights` / `build_selection_highlights`). -/
def build_highlights (focused : Bool) (syntaxEvents : List HighlightEvent)
    (selectionSpans : List (Nat × Nat × Nat)) : List HighlightEvent :=
  if focused then mergeSpec syntaxEvents selectionSpans else syntaxEvents

/-! ## Compositor (`DocumentWidget::ui`, lines 362-492) -/

/-- One painted item: a styled text run at a screen row / cell column, or
a gutter label (line number) with its left padding and the text column
that painting it establishes.  Rows count from 1 (the source's `line`
variable); columns are character cells. -/
inductive PaintItem where
  | run (row col : Nat) (text : List Char) (style : Style)
  | gutter (row number padCol textCol : Nat)
deriving DecidableEq

/-- Screen row of a painted item. -/
def PaintItem.row : PaintItem → Nat
  | PaintItem.run r _ _ _ => r
  | PaintItem.gutter r _ _ _ => r

/-- Compositor loop state: `visualX` and `line` are the source's `u16`
locals, `x` the paint cursor's cell column, `spans` the active scope
stack (`Vec<Highlight>`, pushed at the end), `out` the emitted paint
items, and `stopped` records that the loop broke out (row budget
exhausted) or panicked (`dumb_log` overflow) — either way no further
input is consumed. -/
structure CompState where
  visualX : Nat
  line : Nat
  x : Nat
  spans : List Nat
  out : List PaintItem
  stopped : Bool
deriving DecidableEq

/-- The run emission block (lines 425-448): paints the trimmed fragment
with the style folded from the active scope stack, advances the paint
cursor by the painted width, and advances `visual_x` by the *untrimmed*
chunk byte length (`saturating_add` on `u16`, after an `as u16` cast). -/
def emitRunStep (theme : Theme) (textStyle : Style) (area : Rect)
    (trimmed chunkLine : List Char) (st : CompState) : CompState :=
  if trimmed ≠ [] ∧ st.visualX < area.width then
    let style := st.spans.foldl (fun acc s => Style.patch acc (theme.highlight s)) textStyle
    { st with
      out := st.out ++ [PaintItem.run st.line st.x trimmed style]
      x := st.x + trimmed.length
      visualX := min (st.visualX + byteLen chunkLine % 65536) 65535 }
  else st

/-- The line-terminator block (lines 450-479): on a fragment ending in a
newline, reset the paint cursor and `visual_x`, advance `line`, break out
of the loop once `line` exceeds the viewport height, and otherwise emit
the gutter label of the next line (right-aligned in a five-cell field,
one spacing cell after it).  `dumb_log` reaching `unreachable!()` aborts
the frame. -/
def handleNewline (area : Rect) (chunkLine : List Char) (st : CompState) : CompState :=
  if chunkLine.getLast? = some '\n' then
    let line1 := (st.line + 1) % 65536
    if line1 > area.height then
      { st with visualX := 0, x := 0, line := line1, stopped := true }
    else
      let n := (area.y + line1) % 65536
      match dumb_log n with
      | some d =>
        { st with
          visualX := 0
          line := line1
          x := (5 - d) + (d + 1)
          out := st.out ++ [PaintItem.gutter line1 n (5 - d) ((5 - d) + (d + 1))] }
      | none =>
        { st with visualX := 0, line := line1, stopped := true }
  else st

/-- One line fragment of a `Source` event (the body of the
`for chunk_line in ..` loop, lines 404-480).  Trims the trailing newline,
clips against the right edge (`u16` arithmetic with `as u16` casts),
applies the (mis-gated) horizontal-offset drop, emits the run, then
handles the line terminator; the `continue` of line 420 skips the
terminator handling. -/
def processFragment (theme : Theme) (textStyle : Style) (area : Rect)
    (offset : Position) (chunkLine : List Char) (st : CompState) : CompState :=
  if st.stopped then st
  else if st.visualX < area.width then
    let val0 := trimEndNewline chunkLine
    let val1 :=
      if ((byteLen val0 % 65536) + st.visualX) % 65536 ≥ area.width then
        takeBytes val0 (get_grapheme_index val0 (area.width - st.visualX))
      else val0
    if st.visualX < offset.row % 65536 then
      if byteLen val1 > offset.row then
        let st1 := { st with visualX := offset.row % 65536 }
        let val2 := dropBytes val1 (get_grapheme_index val1 offset.col)
        handleNewline area chunkLine (emitRunStep theme textStyle area val2 chunkLine st1)
      else
        { st with visualX := (st.visualX + byteLen val1 % 65536) % 65536 }
    else
      handleNewline area chunkLine (emitRunStep theme textStyle area val1 chunkLine st)
  else
    handleNewline area chunkLine st

/-- A `Source(start, end)` event (lines 401-404): slice the text (char
offsets; an out-of-bounds request degrades to a single blank), split into
newline-inclusive fragments, and process each. -/
def processSource (theme : Theme) (textStyle : Style) (area : Rect)
    (offset : Position) (text : List Char) (start stop : Nat)
    (st : CompState) : CompState :=
  let slice :=
    if start ≤ stop ∧ stop ≤ text.length then (text.drop start).take (stop - start)
    else [' ']
  (splitInclusive slice).foldl
    (fun s frag => processFragment theme textStyle area offset frag s) st

/-- One iteration of the event loop (lines 399-489).  After the loop has
broken out (`stopped`), remaining events are not consumed. -/
def processEvent (theme : Theme) (textStyle : Style) (area : Rect)
    (offset : Position) (text : List Char) (st : CompState)
    (ev : HighlightEvent) : CompState :=
  if st.stopped then st
  else
    match ev with
    | HighlightEvent.source s e => processSource theme textStyle area offset text s e st
    | HighlightEvent.highlightStart h => { st with spans := st.spans ++ [h] }
    | HighlightEvent.highlightEnd => { st with spans := st.spans.dropLast }

/-- The state before the event loop (lines 381-397): `visual_x = 0`,
`line = 1`, empty scope stack, and the first gutter label painted
unconditionally (a `dumb_log` overflow there aborts the frame before
anything is painted). -/
def initState (area : Rect) : CompState :=
  let n := (1 + area.y) % 65536
  match dumb_log n with
  | some d =>
    { visualX := 0
      line := 1
      x := (5 - d) + (d + 1)
      spans := []
      out := [PaintItem.gutter 1 n (5 - d) ((5 - d) + (d + 1))]
      stopped := false }
  | none =>
    { visualX := 0, line := 1, x := 0, spans := [], out := [], stopped := true }

/-- `DocumentWidget::ui` (lines 362-492): fold the highlight event stream
through the compositor. -/
def documentWidgetUi (theme : Theme) (textStyle : Style) (area : Rect)
    (offset : Position) (text : List Char)
    (events : List HighlightEvent) : CompState :=
  events.foldl (processEvent theme textStyle area offset text) (initState area)

/-- The all-`none` theme (no scope defined at all). -/
def emptySelTheme : SelTheme :=
  { find_scope_index := fun _ => none }

/-- The unstyled base style used in concrete evaluations. -/
def plainStyle : Style :=
  { fg := none, bg := none, modifiers := none }

/-- A theme resolving every scope to `plainStyle`, for concrete
evaluations. -/
def plainTheme : Theme :=
  { highlight := fun _ => plainStyle }

/-! ## Helper lemmas -/

/-- Folding a predicate-preserving step over a list preserves the
predicate. -/
theorem foldlInv {α β : Type} (P : β → Prop) (f : β → α → β)
    (h : ∀ st a, P st → P (f st a)) (l : List α) :
    ∀ st : β, P st → P (l.foldl f st) := by
  induction l with
  | nil => intro st hst; exact hst
  | cons a t ih => intro st hst; exact ih (f st a) (h st a hst)

/-- `dumb_log` only ever returns a digit count between 1 and 4. -/
theorem dumb_log_bounds {n d : Nat} (h : dumb_log n = some d) :
    1 ≤ d ∧ d ≤ 4 := by
  unfold dumb_log at h
  split at h <;> [skip; split at h] <;> [skip; skip; split at h] <;>
    [skip; skip; skip; split at h] <;> simp_all <;> omega

/-- `emitRunStep` either leaves the state unchanged or appends exactly one
run, painted at the current line and paint column with the style folded
from the active scope stack. -/
theorem emitRunStep_cases (theme : Theme) (b : Style) (area : Rect)
    (trimmed chunk : List Char) (st : CompState) :
    emitRunStep theme b area trimmed chunk st = st ∨
    emitRunStep theme b area trimmed chunk st =
      { st with
        out := st.out ++ [PaintItem.run st.line st.x trimmed
          (st.spans.foldl (fun acc s => Style.patch acc (theme.highlight s)) b)]
        x := st.x + trimmed.length
        visualX := min (st.visualX + byteLen chunk % 65536) 65535 } := by
  unfold emitRunStep
  split
  · exact Or.inr rfl
  · exact Or.inl rfl

/-- Structural description of `handleNewline`: the output is extended by
at most one gutter label in the standard five-cell layout, the scope
stack is untouched, and the line counter either stays or advances within
the row budget unless the loop stops. -/
theorem handleNewline_master (area : Rect) (chunk : List Char) (st : CompState) :
    ∃ delta,
      (handleNewline area chunk st).out = st.out ++ delta ∧
      (handleNewline area chunk st).spans = st.spans ∧
      ((handleNewline area chunk st).stopped = false →
        st.stopped = false ∧
        ((handleNewline area chunk st).line = st.line ∨
          ((handleNewline area chunk st).line = (st.line + 1) % 65536 ∧
            (st.line + 1) % 65536 ≤ area.height))) ∧
      (∀ item ∈ delta, ∃ n d,
        item = PaintItem.gutter ((st.line + 1) % 65536) n (5 - d) ((5 - d) + (d + 1)) ∧
        dumb_log n = some d ∧ (st.line + 1) % 65536 ≤ area.height) := by
  simp only [handleNewline]
  split
  · split
    · exact ⟨[], by simp, rfl, by intro h; simp at h, by simp⟩
    · rename_i hle
      split
      · rename_i d hd
        refine ⟨[PaintItem.gutter ((st.line + 1) % 65536) ((area.y + (st.line + 1) % 65536) % 65536) (5 - d) ((5 - d) + (d + 1))], rfl, rfl, ?_, ?_⟩
        · intro h
          exact ⟨h, Or.inr ⟨rfl, by omega⟩⟩
        · intro item hitem
          simp only [List.mem_singleton] at hitem
          exact ⟨_, d, hitem, hd, by omega⟩
      · exact ⟨[], by simp, rfl, by intro h; simp at h, by simp⟩
  · exact ⟨[], by simp, rfl, fun h => ⟨h, Or.inl rfl⟩, by simp⟩

/-- Structural description of the run-emission / line-terminator sequence
of one fragment: at most one run (at the current line, styled by the
scope-stack fold) and one in-budget gutter label are appended, the scope
stack is untouched, and the line counter stays or advances within the
budget unless the loop stops. -/
theorem emitNewline_master (theme : Theme) (b : Style) (area : Rect)
    (trimmed chunk : List Char) (st : CompState) :
    ∃ delta,
      (handleNewline area chunk (emitRunStep theme b area trimmed chunk st)).out = st.out ++ delta ∧
      (handleNewline area chunk (emitRunStep theme b area trimmed chunk st)).spans = st.spans ∧
      ((handleNewline area chunk (emitRunStep theme b area trimmed chunk st)).stopped = false →
        st.stopped = false ∧
        ((handleNewline area chunk (emitRunStep theme b area trimmed chunk st)).line = st.line ∨
          ((handleNewline area chunk (emitRunStep theme b area trimmed chunk st)).line = (st.line + 1) % 65536 ∧
            (st.line + 1) % 65536 ≤ area.height))) ∧
      (∀ item ∈ delta,
        (∃ txt sty, item = PaintItem.run st.line st.x txt sty ∧
          sty = st.spans.foldl (fun acc s => Style.patch acc (theme.highlight s)) b) ∨
        (∃ n d, item = PaintItem.gutter ((st.line + 1) % 65536) n (5 - d) ((5 - d) + (d + 1)) ∧
          dumb_log n = some d ∧ (st.line + 1) % 65536 ≤ area.height)) := by
  rcases emitRunStep_cases theme b area trimmed chunk st with hcase | hcase <;> rw [hcase]
  · obtain ⟨delta, h1, h2, h3, h4⟩ := handleNewline_master area chunk st
    exact ⟨delta, h1, h2, h3, fun item hitem => Or.inr (h4 item hitem)⟩
  · obtain ⟨delta, h1, h2, h3, h4⟩ := handleNewline_master area chunk
      { st with
        out := st.out ++ [PaintItem.run st.line st.x trimmed
          (st.spans.foldl (fun acc s => Style.patch acc (theme.highlight s)) b)]
        x := st.x + trimmed.length
        visualX := min (st.visualX + byteLen chunk % 65536) 65535 }
    refine ⟨PaintItem.run st.line st.x trimmed
      (st.spans.foldl (fun acc s => Style.patch acc (theme.highlight s)) b) :: delta, ?_, h2, h3, ?_⟩
    · rw [h1, List.append_assoc]
      rfl
    · intro item hitem
      rcases List.mem_cons.mp hitem with hitem | hitem
      · exact Or.inl ⟨trimmed, _, hitem, rfl⟩
      · exact Or.inr (h4 item hitem)

/-- Variant of `emitNewline_master` for a non-stopped state, phrased with
the five conjuncts used by `processFragment_master`. -/
theorem emitNewline_masterA (theme : Theme) (b : Style) (area : Rect)
    (trimmed chunk : List Char) (st : CompState) (hstop : st.stopped = false) :
    ∃ delta,
      (handleNewline area chunk (emitRunStep theme b area trimmed chunk st)).out = st.out ++ delta ∧
      (handleNewline area chunk (emitRunStep theme b area trimmed chunk st)).spans = st.spans ∧
      (st.stopped = true → handleNewline area chunk (emitRunStep theme b area trimmed chunk st) = st) ∧
      ((handleNewline area chunk (emitRunStep theme b area trimmed chunk st)).stopped = false →
        st.stopped = false ∧
        ((handleNewline area chunk (emitRunStep theme b area trimmed chunk st)).line = st.line ∨
          ((handleNewline area chunk (emitRunStep theme b area trimmed chunk st)).line = (st.line + 1) % 65536 ∧
            (st.line + 1) % 65536 ≤ area.height))) ∧
      (∀ item ∈ delta,
        (∃ txt sty, item = PaintItem.run st.line st.x txt sty ∧
          sty = st.spans.foldl (fun acc s => Style.patch acc (theme.highlight s)) b) ∨
        (∃ n d, item = PaintItem.gutter ((st.line + 1) % 65536) n (5 - d) ((5 - d) + (d + 1)) ∧
          dumb_log n = some d ∧ (st.line + 1) % 65536 ≤ area.height)) := by
  obtain ⟨delta, h1, h2, h3, h4⟩ := emitNewline_master theme b area trimmed chunk st
  exact ⟨delta, h1, h2, fun h => absurd h (by simp [hstop]), h3, h4⟩

/-- Variant of `emitNewline_master` for the state whose `visualX` was just
bumped to the horizontal offset, phrased with the five conjuncts used by
`processFragment_master`. -/
theorem emitNewline_masterB (theme : Theme) (b : Style) (area : Rect)
    (trimmed chunk : List Char) (st : CompState) (v : Nat) (hstop : st.stopped = false) :
    ∃ delta,
      (handleNewline area chunk (emitRunStep theme b area trimmed chunk
        { st with visualX := v })).out = st.out ++ delta ∧
      (handleNewline area chunk (emitRunStep theme b area trimmed chunk
        { st with visualX := v })).spans = st.spans ∧
      (st.stopped = true → handleNewline area chunk (emitRunStep theme b area trimmed chunk
        { st with visualX := v }) = st) ∧
      ((handleNewline area chunk (emitRunStep theme b area trimmed chunk
        { st with visualX := v })).stopped = false →
        st.stopped = false ∧
        ((handleNewline area chunk (emitRunStep theme b area trimmed chunk
          { st with visualX := v })).line = st.line ∨
          ((handleNewline area chunk (emitRunStep theme b area trimmed chunk
            { st with visualX := v })).line = (st.line + 1) % 65536 ∧
            (st.line + 1) % 65536 ≤ area.height))) ∧
      (∀ item ∈ delta,
        (∃ txt sty, item = PaintItem.run st.line st.x txt sty ∧
          sty = st.spans.foldl (fun acc s => Style.patch acc (theme.highlight s)) b) ∨
        (∃ n d, item = PaintItem.gutter ((st.line + 1) % 65536) n (5 - d) ((5 - d) + (d + 1)) ∧
          dumb_log n = some d ∧ (st.line + 1) % 65536 ≤ area.height)) := by
  obtain ⟨delta, h1, h2, h3, h4⟩ :=
    emitNewline_master theme b area trimmed chunk { st with visualX := v }
  exact ⟨delta, h1, h2, fun h => absurd h (by simp [hstop]), h3, h4⟩

/-- Structural description of `processFragment`: the output is extended
by at most one run and one gutter label of the standard shapes, the scope
stack is untouched, a stopped state absorbs the fragment, and the line
counter stays or advances within the budget unless the loop stops. -/
theorem processFragment_master (theme : Theme) (b : Style) (area : Rect)
    (offset : Position) (frag : List Char) (st : CompState) :
    ∃ delta,
      (processFragment theme b area offset frag st).out = st.out ++ delta ∧
      (processFragment theme b area offset frag st).spans = st.spans ∧
      (st.stopped = true → processFragment theme b area offset frag st = st) ∧
      ((processFragment theme b area offset frag st).stopped = false →
        st.stopped = false ∧
        ((processFragment theme b area offset frag st).line = st.line ∨
          ((processFragment theme b area offset frag st).line = (st.line + 1) % 65536 ∧
            (st.line + 1) % 65536 ≤ area.height))) ∧
      (∀ item ∈ delta,
        (∃ txt sty, item = PaintItem.run st.line st.x txt sty ∧
          sty = st.spans.foldl (fun acc s => Style.patch acc (theme.highlight s)) b) ∨
        (∃ n d, item = PaintItem.gutter ((st.line + 1) % 65536) n (5 - d) ((5 - d) + (d + 1)) ∧
          dumb_log n = some d ∧ (st.line + 1) % 65536 ≤ area.height)) := by
  by_cases hstop : st.stopped = true
  · refine ⟨[], ?_, ?_, ?_, ?_, ?_⟩ <;> simp [processFragment, hstop]
  · have hstop' : st.stopped = false := by
      cases h : st.stopped
      · rfl
      · exact absurd h hstop
    simp only [processFragment]
    rw [if_neg hstop]
    split
    · -- visualX < width
      split
      · -- visualX < offset.row % 65536: split the clip-if, then the drop guard
        split <;> split <;>
          first
          | -- emit (from the bumped state) then handle the newline
            exact emitNewline_masterB theme b area _ frag st (offset.row % 65536) hstop'
          | -- continue path: only visualX changes
            exact ⟨[], by simp, rfl, fun h => absurd h hstop,
              fun _ => ⟨hstop', Or.inl rfl⟩, by simp⟩
      · exact emitNewline_masterA theme b area _ frag st hstop'
    · -- visualX ≥ width: only the newline handling runs
      obtain ⟨delta, h1, h2, h3, h4⟩ := handleNewline_master area frag st
      exact ⟨delta, h1, h2, fun h => absurd h hstop, h3,
        fun item hitem => Or.inr (h4 item hitem)⟩

/-- Folding `processFragment` over any fragment list only appends to the
output, leaves the scope stack untouched, and every appended run is styled
by the scope-stack fold taken at entry. -/
theorem fragFold_c8 (theme : Theme) (b : Style) (area : Rect) (offset : Position)
    (frags : List (List Char)) :
    ∀ st : CompState,
      ∃ delta,
        (frags.foldl (fun s f => processFragment theme b area offset f s) st).out = st.out ++ delta ∧
        (frags.foldl (fun s f => processFragment theme b area offset f s) st).spans = st.spans ∧
        (∀ item ∈ delta, ∀ r c txt sty, item = PaintItem.run r c txt sty →
          sty = st.spans.foldl (fun acc sc => Style.patch acc (theme.highlight sc)) b) := by
  induction frags with
  | nil => intro st; exact ⟨[], by simp, rfl, by simp⟩
  | cons f t ih =>
    intro st
    obtain ⟨d1, h1, h2, _, _, h5⟩ := processFragment_master theme b area offset f st
    obtain ⟨d2, g1, g2, g3⟩ := ih (processFragment theme b area offset f st)
    refine ⟨d1 ++ d2, ?_, ?_, ?_⟩
    · rw [List.foldl_cons, g1, h1, List.append_assoc]
    · rw [List.foldl_cons, g2, h2]
    · intro item hitem r c txt sty heq
      rcases List.mem_append.mp hitem with hm | hm
      · rcases h5 item hm with ⟨txt', sty', heq', hsty⟩ | ⟨n, dd, heq', _, _⟩
        · rw [heq] at heq'
          simp only [PaintItem.run.injEq] at heq'
          rw [heq'.2.2.2]
          exact hsty
        · rw [heq] at heq'
          simp at heq'
      · have hg := g3 item hm r c txt sty heq
        rwa [h2] at hg

/-- `processFragment` preserves the row-budget invariant: when the loop
has not stopped the line counter is within the viewport height, and every
emitted item sits at a row within the viewport height. -/
theorem processFragment_P2 (theme : Theme) (b : Style) (area : Rect)
    (offset : Position) (frag : List Char) (st : CompState)
    (h : (st.stopped = false → st.line ≤ area.height) ∧
      ∀ item ∈ st.out, PaintItem.row item ≤ area.height) :
    ((processFragment theme b area offset frag st).stopped = false →
      (processFragment theme b area offset frag st).line ≤ area.height) ∧
    ∀ item ∈ (processFragment theme b area offset frag st).out,
      PaintItem.row item ≤ area.height := by
  obtain ⟨delta, h1, h2, h3, h4, h5⟩ := processFragment_master theme b area offset frag st
  constructor
  · intro hs
    rcases h4 hs with ⟨hs0, hline | ⟨hline, hle⟩⟩
    · rw [hline]; exact h.1 hs0
    · rw [hline]; exact hle
  · intro item hitem
    rw [h1] at hitem
    rcases List.mem_append.mp hitem with hm | hm
    · exact h.2 item hm
    · by_cases hstop : st.stopped = true
      · rw [h3 hstop] at h1
        have hlen := congrArg List.length h1
        simp only [List.length_append] at hlen
        have hdelta : delta = [] := List.eq_nil_of_length_eq_zero (by omega)
        rw [hdelta] at hm
        simp at hm
      · have hstop' : st.stopped = false := by
          cases hb : st.stopped
          · rfl
          · exact absurd hb hstop
        rcases h5 item hm with ⟨txt, sty, heq, _⟩ | ⟨n, d, heq, _, hle⟩
        · rw [heq]; exact h.1 hstop'
        · rw [heq]; exact hle

/-- `processEvent` preserves the row-budget invariant. -/
theorem processEvent_P2 (theme : Theme) (b : Style) (area : Rect)
    (offset : Position) (text : List Char) (st : CompState) (ev : HighlightEvent)
    (h : (st.stopped = false → st.line ≤ area.height) ∧
      ∀ item ∈ st.out, PaintItem.row item ≤ area.height) :
    ((processEvent theme b area offset text st ev).stopped = false →
      (processEvent theme b area offset text st ev).line ≤ area.height) ∧
    ∀ item ∈ (processEvent theme b area offset text st ev).out,
      PaintItem.row item ≤ area.height := by
  by_cases hstop : st.stopped = true
  · unfold processEvent; rw [if_pos hstop]; exact h
  · unfold processEvent; rw [if_neg hstop]
    cases ev with
    | source s e =>
      simp only [processSource]
      exact foldlInv
        (fun u => (u.stopped = false → u.line ≤ area.height) ∧
          ∀ item ∈ u.out, PaintItem.row item ≤ area.height)
        (fun u frag => processFragment theme b area offset frag u)
        (fun u frag hu => processFragment_P2 theme b area offset frag u hu)
        _ st h
    | highlightStart hg => exact h
    | highlightEnd => exact h

/-- The initial compositor state satisfies the row-budget invariant as
soon as the viewport has at least one row. -/
theorem initState_P2 (area : Rect) (h1 : 1 ≤ area.height) :
    ((initState area).stopped = false → (initState area).line ≤ area.height) ∧
    ∀ item ∈ (initState area).out, PaintItem.row item ≤ area.height := by
  simp only [initState]
  split
  · refine ⟨fun _ => h1, ?_⟩
    intro item hitem
    simp only [List.mem_singleton] at hitem
    rw [hitem]
    exact h1
  · exact ⟨fun _ => h1, by simp⟩

/-- `processFragment` preserves the gutter-layout invariant: every gutter
label in the output carries a digit count from `dumb_log`, a left padding
of `5 - digits`, and the constant text column `6`. -/
theorem processFragment_P3 (theme : Theme) (b : Style) (area : Rect)
    (offset : Position) (frag : List Char) (st : CompState)
    (h : ∀ item ∈ st.out, ∀ r n p t, item = PaintItem.gutter r n p t →
      ∃ d, dumb_log n = some d ∧ p = 5 - d ∧ t = 6) :
    ∀ item ∈ (processFragment theme b area offset frag st).out,
      ∀ r n p t, item = PaintItem.gutter r n p t →
        ∃ d, dumb_log n = some d ∧ p = 5 - d ∧ t = 6 := by
  obtain ⟨delta, h1, _, _, _, h5⟩ := processFragment_master theme b area offset frag st
  intro item hitem r n p t heq
  rw [h1] at hitem
  rcases List.mem_append.mp hitem with hm | hm
  · exact h item hm r n p t heq
  · rcases h5 item hm with ⟨txt, sty, heq', _⟩ | ⟨n', d, heq', hd, _⟩
    · rw [heq] at heq'
      simp at heq'
    · rw [heq] at heq'
      simp only [PaintItem.gutter.injEq] at heq'
      obtain ⟨-, hn, hp, ht⟩ := heq'
      obtain ⟨hd1, hd4⟩ := dumb_log_bounds hd
      exact ⟨d, hn ▸ hd, hp, by omega⟩

/-- `processEvent` preserves the gutter-layout invariant. -/
theorem processEvent_P3 (theme : Theme) (b : Style) (area : Rect)
    (offset : Position) (text : List Char) (st : CompState) (ev : HighlightEvent)
    (h : ∀ item ∈ st.out, ∀ r n p t, item = PaintItem.gutter r n p t →
      ∃ d, dumb_log n = some d ∧ p = 5 - d ∧ t = 6) :
    ∀ item ∈ (processEvent theme b area offset text st ev).out,
      ∀ r n p t, item = PaintItem.gutter r n p t →
        ∃ d, dumb_log n = some d ∧ p = 5 - d ∧ t = 6 := by
  by_cases hstop : st.stopped = true
  · unfold processEvent; rw [if_pos hstop]; exact h
  · unfold processEvent; rw [if_neg hstop]
    cases ev with
    | source s e =>
      simp only [processSource]
      exact foldlInv
        (fun u => ∀ item ∈ u.out, ∀ r n p t, item = PaintItem.gutter r n p t →
          ∃ d, dumb_log n = some d ∧ p = 5 - d ∧ t = 6)
        (fun u frag => processFragment theme b area offset frag u)
        (fun u frag hu => processFragment_P3 theme b area offset frag u hu)
        _ st h
    | highlightStart hg => exact h
    | highlightEnd => exact h

/-- The initial compositor state satisfies the gutter-layout invariant. -/
theorem initState_P3 (area : Rect) :
    ∀ item ∈ (initState area).out, ∀ r n p t, item = PaintItem.gutter r n p t →
      ∃ d, dumb_log n = some d ∧ p = 5 - d ∧ t = 6 := by
  simp only [initState]
  split
  · rename_i d hd
    intro item hitem r n p t heq
    simp only [List.mem_singleton] at hitem
    rw [heq] at hitem
    simp only [PaintItem.gutter.injEq] at hitem
    obtain ⟨-, hn, hp, ht⟩ := hitem
    obtain ⟨hd1, hd4⟩ := dumb_log_bounds hd
    exact ⟨d, hn ▸ hd, hp, by omega⟩
  · simp

/-! ## Claim theorems -/

/-- C1 (code bug): with horizontal scroll `offsetCol = 3` (and
`offsetRow = 0`) over `"abcdef"`, the compositor drops no leading
columns at all — the drop of lines 414-422 of `app.rs` is gated on
`visual_x < offset.row` instead of `offset.col` — so the emitted run
starts at logical column 0; the claim requires it to start at logical
column 3 (text `"def"`). -/
theorem c1_offset_col_ignored :
    (documentWidgetUi plainTheme plainStyle
        { x := 0, y := 0, width := 10, height := 5 } { row := 0, col := 3 }
        (['a', 'b', 'c', 'd', 'e', 'f']) [HighlightEvent.source 0 6]).out =
      [PaintItem.gutter 1 1 4 6,
       PaintItem.run 1 6 (['a', 'b', 'c', 'd', 'e', 'f']) plainStyle] ∧
    List.drop 3 (['a', 'b', 'c', 'd', 'e', 'f']) = ['d', 'e', 'f'] :=
  ⟨by decide, by decide⟩

/-- C2 (amended): for a viewport of height `H` with `1 ≤ H ≤ 65534`, the
compositor emits runs and gutter labels only for screen rows `1..H`, and
once the loop has stopped it consumes no further events.  (At `H = 0`
the first row's gutter and run are still emitted — see the
counterexample; at `H = 65535` the `u16` line counter can wrap, so row
labels need the upper bound to coincide with physical screen rows.) -/
theorem c2_row_budget_amended (theme : Theme) (b : Style) (area : Rect)
    (offset : Position) (text : List Char) (events : List HighlightEvent)
    (h1 : 1 ≤ area.height) (_h2 : area.height ≤ 65534) :
    (∀ item ∈ (documentWidgetUi theme b area offset text events).out,
      PaintItem.row item ≤ area.height) ∧
    (∀ (st : CompState) (ev : HighlightEvent), st.stopped = true →
      processEvent theme b area offset text st ev = st) := by
  constructor
  · exact (foldlInv
      (fun u => (u.stopped = false → u.line ≤ area.height) ∧
        ∀ item ∈ u.out, PaintItem.row item ≤ area.height)
      (processEvent theme b area offset text)
      (fun u ev hu => processEvent_P2 theme b area offset text u ev hu)
      events (initState area) (initState_P2 area h1)).2
  · intro st ev hstop
    unfold processEvent
    rw [if_pos hstop]

/-- Witness for C2: in a height-2 viewport over four lines, the theorem
applies and, e.g., the second row's gutter label is within the budget. -/
theorem c2_row_budget_amended_witness :
    PaintItem.row (PaintItem.gutter 2 2 4 6) ≤ 2 :=
  (c2_row_budget_amended plainTheme plainStyle
      { x := 0, y := 0, width := 8, height := 2 } { row := 0, col := 0 }
      (['a', '\n', 'b', '\n', 'c', '\n', 'd']) [HighlightEvent.source 0 7]
      (by decide) (by decide)).1
    (PaintItem.gutter 2 2 4 6) (by decide)

/-- C2 counterexample: at viewport height `0` the compositor still emits
the first row's gutter label and run (rows are 1-based; the first gutter
is painted unconditionally before the event loop), so output exists for
more than `H = 0` screen rows. -/
theorem c2_row_budget_counterexample :
    (documentWidgetUi plainTheme plainStyle
        { x := 0, y := 0, width := 5, height := 0 } { row := 0, col := 0 }
        (['a']) [HighlightEvent.source 0 1]).out =
      [PaintItem.gutter 1 1 4 6, PaintItem.run 1 6 (['a']) plainStyle] ∧
    0 < PaintItem.row (PaintItem.gutter 1 1 4 6) :=
  ⟨by decide, by decide⟩

/-- C3 (amended): every gutter label is right-aligned inside a fixed
five-cell field (left padding `5 - digits(n)`, so all numerals end at
column 5) and establishes the constant text column `6`, for every line
number `dumb_log` accepts; in particular line numbers 9 and 10 in one
frame share the same text column, which never shifts mid-frame.  The
claimed formula `digitCount(max displayed) + 1` does not hold — see the
counterexample. -/
theorem c3_gutter_layout_amended (theme : Theme) (b : Style) (area : Rect)
    (offset : Position) (text : List Char) (events : List HighlightEvent) :
    ∀ item ∈ (documentWidgetUi theme b area offset text events).out,
      ∀ r n p t, item = PaintItem.gutter r n p t →
        ∃ d, dumb_log n = some d ∧ p = 5 - d ∧ t = 6 :=
  foldlInv
    (fun u => ∀ item ∈ u.out, ∀ r n p t, item = PaintItem.gutter r n p t →
      ∃ d, dumb_log n = some d ∧ p = 5 - d ∧ t = 6)
    (processEvent theme b area offset text)
    (fun u ev hu => processEvent_P3 theme b area offset text u ev hu)
    events (initState area) (initState_P3 area)

/-- Witness for C3: in a frame showing line numbers 1-10, the gutter
label of line 10 has padding `5 - 2 = 3` and text column `6` (the same
text column as the two-digit-free rows before it). -/
theorem c3_gutter_layout_amended_witness :
    ∃ d, dumb_log 10 = some d ∧ 3 = 5 - d ∧ 6 = 6 :=
  c3_gutter_layout_amended plainTheme plainStyle
    { x := 0, y := 0, width := 8, height := 12 } { row := 0, col := 0 }
    (['1', '\n', '2', '\n', '3', '\n', '4', '\n', '5', '\n', '6', '\n', '7', '\n', '8', '\n', '9', '\n', 'x'])
    [HighlightEvent.source 0 19]
    (PaintItem.gutter 10 10 3 6) (by decide) 10 10 3 6 rfl

/-- C3 counterexample: in a frame whose maximum displayed line number is
`1`, the claimed gutter width `digitCount(1) + 1 = 2` differs from the
text column `6` at which the compositor actually paints the run. -/
theorem c3_gutter_width_counterexample :
    (documentWidgetUi plainTheme plainStyle
        { x := 0, y := 0, width := 8, height := 3 } { row := 0, col := 0 }
        (['a']) [HighlightEvent.source 0 1]).out =
      [PaintItem.gutter 1 1 4 6, PaintItem.run 1 6 (['a']) plainStyle] ∧
    dumb_log 1 = some 1 ∧ (6 : Nat) ≠ 1 + 1 :=
  ⟨by decide, by decide, by decide⟩

/-- C4 (amended): selection-highlight generation panics exactly when the
theme lacks the `ui.selection` scope (the source's `.expect`); when
`ui.selection` resolves, generation always succeeds — `ui.cursor` falls
back to the selection scope (not to the base style), the mode-specific
cursor scopes fall back to the cursor scope, and the `.primary` variants
fall back to their non-primary scopes, all resolved before the range
loop. -/
theorem c4_scope_fallback_amended (theme : SelTheme) (mode : Mode)
    (text : List Char) (selection : List SelRange) (primaryIdx : Nat) :
    (build_selection_highlights theme mode text selection primaryIdx).isSome ↔
      (theme.find_scope_index ScopeName.uiSelection).isSome := by
  unfold build_selection_highlights
  cases h : theme.find_scope_index ScopeName.uiSelection <;> simp

/-- C4 counterexample: a theme with no scopes defined makes
`build_selection_highlights` panic (the `.expect` on `ui.selection`), so
an error does propagate out, against the claim. -/
theorem c4_missing_selection_panics :
    build_selection_highlights emptySelTheme Mode.normal [] [] 0 = none := rfl

/-- C5: a selection range with `head = anchor` at the end of the buffer
emits exactly one span — the cursor scope over `head..head+1` (one
synthetic cell) — and no selection-scope span. -/
theorem c5_cursor_at_end (cursorScope selectionScope : Nat) (text : List Char)
    (r : SelRange) (h1 : r.head = r.anchor) (h2 : r.head = text.length) :
    processRange cursorScope selectionScope text r =
      [(cursorScope, r.head, r.head + 1)] := by
  unfold processRange
  rw [if_pos ⟨h1, h2⟩]

/-- Witness for C5: the end-of-buffer cursor over `"ab"` yields the one
cursor-scope span `2..3`. -/
theorem c5_cursor_at_end_witness :
    processRange 1 2 (['a', 'b']) { anchor := 2, head := 2 } = [(1, 2, 3)] :=
  c5_cursor_at_end 1 2 (['a', 'b']) { anchor := 2, head := 2 } rfl rfl

/-- C6: away from the end-of-buffer special case, after widening to
minimum width one grapheme: a forward range emits a selection span
`anchor..cursorStart` then a cursor span `cursorStart..head` at the
previous grapheme boundary before `head`; a reverse range emits a cursor
span `head..cursorEnd` then a selection span `cursorEnd..anchor` at the
next grapheme boundary after `head`. -/
theorem c6_forward_reverse (cursorScope selectionScope : Nat) (text : List Char)
    (r : SelRange) (h : ¬(r.head = r.anchor ∧ r.head = text.length)) :
    ((min_width_1 text r).head > (min_width_1 text r).anchor →
      processRange cursorScope selectionScope text r =
        [(selectionScope, (min_width_1 text r).anchor,
            prev_grapheme_boundary text (min_width_1 text r).head),
         (cursorScope, prev_grapheme_boundary text (min_width_1 text r).head,
            (min_width_1 text r).head)]) ∧
    (¬ (min_width_1 text r).head > (min_width_1 text r).anchor →
      processRange cursorScope selectionScope text r =
        [(cursorScope, (min_width_1 text r).head,
            next_grapheme_boundary text (min_width_1 text r).head),
         (selectionScope, next_grapheme_boundary text (min_width_1 text r).head,
            (min_width_1 text r).anchor)]) := by
  simp only [processRange]
  rw [if_neg h]
  constructor
  · intro hcmp; rw [if_pos hcmp]
  · intro hcmp; rw [if_neg hcmp]

/-- Witness for C6: over `"abcde"`, `anchor = 0, head = 5` puts the
cursor span at `4..5` with selection `0..4`; `anchor = 5, head = 0`
puts the cursor span at `0..1` with selection `1..5`. -/
theorem c6_forward_reverse_witness :
    processRange 1 2 (['a', 'b', 'c', 'd', 'e']) { anchor := 0, head := 5 } =
      [(2, 0, 4), (1, 4, 5)] ∧
    processRange 1 2 (['a', 'b', 'c', 'd', 'e']) { anchor := 5, head := 0 } =
      [(1, 0, 1), (2, 1, 5)] :=
  ⟨(c6_forward_reverse 1 2 (['a', 'b', 'c', 'd', 'e']) { anchor := 0, head := 5 }
      (by decide)).1 (by decide),
   (c6_forward_reverse 1 2 (['a', 'b', 'c', 'd', 'e']) { anchor := 5, head := 0 }
      (by decide)).2 (by decide)⟩

/-- C7 (amended): for `offsetRow ≤ lineCount(text)`, the viewport mapper
renders the inclusive line range `[offsetRow, min(offsetRow+height-1,
lastLine)]` and returns its byte range via the two line-to-byte lookups,
clamping the end past the buffer without a panic; for `offsetRow` beyond
the line count the start lookup itself is out of bounds and panics — see
the counterexample. -/
theorem c7_viewport_range_amended (text : List Char) (offsetRow height : Nat)
    (h : offsetRow ≤ lineCount text) :
    build_syntax_highlights_range text offsetRow height =
      some (lineToByteAux text offsetRow,
        lineToByteAux text (min ((offsetRow + height) - 1) (lineCount text - 1) + 1)) := by
  have hc : 1 ≤ lineCount text := by unfold lineCount; omega
  have hlast : min ((offsetRow + height) - 1) (lineCount text - 1) + 1 ≤ lineCount text := by
    have := Nat.min_le_right ((offsetRow + height) - 1) (lineCount text - 1)
    omega
  simp only [build_syntax_highlights_range, line_to_byte]
  rw [if_pos h, if_pos hlast]

/-- Witness for C7: over `"a\nb"` with `offsetRow = 1, height = 5`, the
byte range is `2..3` (the last line, clamped). -/
theorem c7_viewport_range_amended_witness :
    build_syntax_highlights_range (['a', '\n', 'b']) 1 5 = some (2, 3) :=
  c7_viewport_range_amended (['a', '\n', 'b']) 1 5 (by decide)

/-- C7 counterexample: with a one-line buffer and `offsetRow = 2`, the
start lookup `line_to_byte(2)` is out of bounds (the clamp only applies
to the end of the range), so the mapper panics against the claim's
"no out-of-bounds access or panic". -/
theorem c7_viewport_range_counterexample :
    build_syntax_highlights_range (['a']) 2 1 = none := by decide

/-- C8: on a `Source` event, every run the compositor emits is styled by
folding the active scope stack outermost→innermost starting from the
base text style, `Style.patch` overriding each of foreground, background
and modifier set only when the inner style defines that field; with an
empty stack the run is painted with the base style unchanged. -/
theorem c8_style_stack_fold (theme : Theme) (b : Style) (area : Rect)
    (offset : Position) (text : List Char) (st : CompState) (s e : Nat) :
    ((∀ a i : Style, i.fg = none → (Style.patch a i).fg = a.fg) ∧
     (∀ (a i : Style) (c : Nat), i.fg = some c → (Style.patch a i).fg = some c) ∧
     (∀ a i : Style, i.bg = none → (Style.patch a i).bg = a.bg) ∧
     (∀ (a i : Style) (c : Nat), i.bg = some c → (Style.patch a i).bg = some c) ∧
     (∀ a i : Style, i.modifiers = none → (Style.patch a i).modifiers = a.modifiers) ∧
     (∀ (a i : Style) (m : Nat), i.modifiers = some m → (Style.patch a i).modifiers = some m)) ∧
    ∃ delta,
      (processEvent theme b area offset text st (HighlightEvent.source s e)).out =
        st.out ++ delta ∧
      (∀ item ∈ delta, ∀ r c txt sty, item = PaintItem.run r c txt sty →
        sty = st.spans.foldl (fun acc sc => Style.patch acc (theme.highlight sc)) b) ∧
      (st.spans = [] →
        ∀ item ∈ delta, ∀ r c txt sty, item = PaintItem.run r c txt sty → sty = b) := by
  refine ⟨⟨?_, ?_, ?_, ?_, ?_, ?_⟩, ?_⟩
  · intro a i h; simp [Style.patch, h]
  · intro a i c h; simp [Style.patch, h]
  · intro a i h; simp [Style.patch, h]
  · intro a i c h; simp [Style.patch, h]
  · intro a i h; simp [Style.patch, h]
  · intro a i m h; simp [Style.patch, h]
  · by_cases hstop : st.stopped = true
    · refine ⟨[], ?_, by simp, by simp⟩
      unfold processEvent
      rw [if_pos hstop]
      simp
    · unfold processEvent
      rw [if_neg hstop]
      simp only [processSource]
      obtain ⟨delta, h1, _, h3⟩ := fragFold_c8 theme b area offset
        (splitInclusive (if s ≤ e ∧ e ≤ text.length then (text.drop s).take (e - s) else [' '])) st
      refine ⟨delta, h1, h3, ?_⟩
      intro hsp item hitem r c txt sty heq
      have hs := h3 item hitem r c txt sty heq
      rw [hsp] at hs
      simpa using hs

/-- Witness for C8: the patch of an all-undefined style over the plain
base style leaves the foreground unchanged. -/
theorem c8_style_stack_fold_witness :
    (Style.patch plainStyle plainStyle).fg = plainStyle.fg :=
  ((c8_style_stack_fold plainTheme plainStyle
      { x := 0, y := 0, width := 8, height := 3 } { row := 0, col := 0 }
      (['a']) (initState { x := 0, y := 0, width := 8, height := 3 }) 0 1).1).1
    plainStyle plainStyle rfl

/-- C9: selection/cursor highlight spans are merged into the rendered
event stream exactly when the view is focused; an unfocused view renders
the syntax-derived events alone, whatever the selection spans are. -/
theorem c9_focus_gating (syntaxEvents : List HighlightEvent)
    (selectionSpans : List (Nat × Nat × Nat)) :
    build_highlights false syntaxEvents selectionSpans = syntaxEvents ∧
    build_highlights true syntaxEvents selectionSpans =
      mergeSpec syntaxEvents selectionSpans :=
  ⟨rfl, rfl⟩

/-- C10: `dumb_log` is total exactly on `0..=9999`, where it returns the
decimal digit count of its argument (`Nat.log 10 n + 1`); every displayed
line number of `10000` or more (up to the `u16` maximum) reaches
`unreachable!()` and the render panics. -/
theorem c10_dumb_log_digit_count (n : Nat) (hn : n ≤ 65535) :
    (n ≤ 9999 → dumb_log n = some (Nat.log 10 n + 1)) ∧
    (10000 ≤ n → dumb_log n = none) := by
  constructor
  · intro h
    unfold dumb_log
    by_cases h9 : n ≤ 9
    · rw [if_pos h9]
      have hl : Nat.log 10 n = 0 := Nat.log_eq_zero_iff.mpr (Or.inl (by omega))
      rw [hl]
    · rw [if_neg h9]
      by_cases h99 : n ≤ 99
      · rw [if_pos h99]
        have hl : Nat.log 10 n = 1 :=
          Nat.log_eq_of_pow_le_of_lt_pow (by norm_num; omega) (by norm_num; omega)
        rw [hl]
      · rw [if_neg h99]
        by_cases h999 : n ≤ 999
        · rw [if_pos h999]
          have hl : Nat.log 10 n = 2 :=
            Nat.log_eq_of_pow_le_of_lt_pow (by norm_num; omega) (by norm_num; omega)
          rw [hl]
        · rw [if_neg h999]
          rw [if_pos (by omega)]
          have hl : Nat.log 10 n = 3 :=
            Nat.log_eq_of_pow_le_of_lt_pow (by norm_num; omega) (by norm_num; omega)
          rw [hl]
  · intro h
    unfold dumb_log
    rw [if_neg (by omega), if_neg (by omega), if_neg (by omega), if_neg (by omega)]

/-- Witness for C10: `dumb_log 5 = some 1` via the theorem, and
`dumb_log 20000` panics. -/
theorem c10_dumb_log_digit_count_witness :
    dumb_log 5 = some (Nat.log 10 5 + 1) ∧ dumb_log 20000 = none :=
  ⟨(c10_dumb_log_digit_count 5 (by decide)).1 (by decide),
   (c10_dumb_log_digit_count 20000 (by decide)).2 (by decide)⟩

end HelixEgui
